import Mathlib

/-!
# Verification of the ELPF particle-filter core

Shallow embedding of `src/ELPF/particle_filter.py` (the `ParticleFilter`
base class with `predict` and `resample`, plus the `BootstrapParticleFilter`
and `ExpectedLikelihoodParticleFilter` update strategies), together with
proofs of the spec's testable properties.

Real numbers are modelled by `ℚ` so that every definition is executable and
every arithmetic fact is exact.  Stacked `d × N` matrices are represented
column-wise as `List (List ℚ)` (one inner list per particle), matching how
the Python code only ever iterates columns (`new_states.T`,
`new_state_vector.T`) or asks for the column count (`shape[1]`).

The external collaborators (transition model, measurement model, likelihood
function) are abstract function parameters, exactly as the spec draws the
interface boundary in §6.  The single uniform draw `u₀` consumed by
systematic resampling is passed as an explicit parameter.
-/

set_option linter.unusedVariables false

namespace ELPF

/-- Modelled from the spec: `Particle` from `ELPF/state.py` (absent from
`src/`), §3 of the spec — one weighted state hypothesis, a state vector of
reals plus a scalar weight. -/
structure Particle where
  state_vector : List ℚ
  weight : ℚ
deriving DecidableEq

/-- Modelled from the spec: `ParticleState` from `ELPF/state.py` (absent
from `src/`), §3 of the spec — an ordered collection of particles. -/
structure ParticleState where
  particles : List Particle
deriving DecidableEq

/-- Modelled from the spec: the derived length-`N` weight vector, reading
the particles in their stored order (spec §3, "aggregate views ... are
derived"). -/
def ParticleState.weights (ps : ParticleState) : List ℚ :=
  ps.particles.map Particle.weight

/-- Modelled from the spec: the particle count `N` (spec §3). -/
def ParticleState.num_particles (ps : ParticleState) : ℕ :=
  ps.particles.length

/-- Modelled from the spec: the stacked `d × N` state matrix, represented
as its list of `N` columns in stored particle order (spec §3). -/
def ParticleState.state_vector (ps : ParticleState) : List (List ℚ) :=
  ps.particles.map Particle.state_vector

/-- A transition model, spec §6: callable on the whole particle batch and a
time interval; the result is the `d × N` matrix of advanced states, held as
its `N` columns (the Python code consumes it as `new_states.T`). -/
structure TransitionModel where
  function : ParticleState → ℚ → List (List ℚ)

/-- A measurement model, spec §6: maps the whole particle batch to the
`m × N` matrix of predicted measurements, held as its `N` columns (the
Python code only uses `predicted_measurements.shape[1]`, i.e. the column
count, which is the length of this list), and exposes an `m × m` noise
covariance. -/
structure MeasurementModel where
  function : ParticleState → List (List ℚ)
  covar : List (List ℚ)

/-- A likelihood function, spec §6: `(observed measurement vector,
predicted measurement matrix, covariance) → length-N likelihood vector`. -/
abbrev LikelihoodFunction := List ℚ → List (List ℚ) → List (List ℚ) → List ℚ

/-- A measurement / detection value, spec §6: carries the observed
measurement vector as `state_vector`. -/
structure Measurement where
  state_vector : List ℚ
deriving DecidableEq

/-- `ParticleFilter.predict` (particle_filter.py lines 38–44):
`new_states = transition_model.function(particle_state, time_interval)`,
then each column of `new_states` is zipped with the input particles,
keeping each particle's weight. -/
def ParticleFilter.predict (tm : TransitionModel) (particle_state : ParticleState)
    (time_interval : ℚ) : ParticleState :=
  ⟨List.zipWith (fun state particle => ⟨state, particle.weight⟩)
    (tm.function particle_state time_interval) particle_state.particles⟩

/-- `np.cumsum` on a weight vector (particle_filter.py line 66). -/
def cumsum : List ℚ → List ℚ
  | [] => []
  | x :: xs => x :: (cumsum xs).map (fun s => x + s)

/-- `cdf[-1] = 1.0` (particle_filter.py line 67): overwrite the final entry
of a non-empty list. -/
def setLast (l : List ℚ) (v : ℚ) : List ℚ :=
  if l = [] then [] else l.dropLast ++ [v]

/-- The binary-search loop of `np.searchsorted(a, v)` with the default
`side='left'` (particle_filter.py line 70): `while lo < hi: mid = (lo+hi)//2;
if a[mid] < v: lo = mid+1 else: hi = mid; return lo`.  The loop runs at most
`hi - lo` iterations, so the extra fuel argument (instantiated with the
array length) never runs out on the calls the code makes. -/
def bisect_left_aux (a : List ℚ) (v : ℚ) : ℕ → ℕ → ℕ → ℕ
  | 0, lo, _ => lo
  | fuel + 1, lo, hi =>
    if lo < hi then
      if a.getD ((lo + hi) / 2) 0 < v then
        bisect_left_aux a v fuel ((lo + hi) / 2 + 1) hi
      else
        bisect_left_aux a v fuel lo ((lo + hi) / 2)
    else lo

/-- `np.searchsorted(a, v)` with the default `side='left'`. -/
def bisect_left (a : List ℚ) (v : ℚ) : ℕ :=
  bisect_left_aux a v a.length 0 a.length

/-- The cumulative weight array used by resampling (particle_filter.py
lines 65–67): cumulative sum of the weights with the last entry forced to
exactly `1.0`. -/
def resample_cdf (ps : ParticleState) : List ℚ :=
  setLast (cumsum ps.weights) 1

/-- The systematic sample points `u_j = u₀ + j / N` for `j = 0 .. N-1`
(particle_filter.py lines 68–69). -/
def resample_points (ps : ParticleState) (u₀ : ℚ) : List ℚ :=
  (List.range ps.num_particles).map
    (fun (j : ℕ) => u₀ + (j : ℚ) / (ps.num_particles : ℚ))

/-- `index = np.searchsorted(cdf, u_j)` (particle_filter.py line 70). -/
def resample_indices (ps : ParticleState) (u₀ : ℚ) : List ℕ :=
  (resample_points ps u₀).map (fun u => bisect_left (resample_cdf ps) u)

/-- `ParticleFilter.resample` (particle_filter.py lines 46–79).  The single
uniform draw `u₀ ~ U[0, 1/N)` made by `np.random.uniform` is an explicit
parameter.  When `Σ wᵢ² = 0`, numpy evaluates `ess = 1/0.0` to `inf` (a
runtime warning, not an error) and `inf < N/2` is false, so the input is
returned unchanged; the first guard reproduces that behaviour exactly
(in `ℚ`, `1/0 = 0` would otherwise diverge from the float semantics). -/
def resample (ps : ParticleState) (u₀ : ℚ) : ParticleState :=
  if (ps.weights.map (fun w => w * w)).sum = 0 then ps
  else if 1 / (ps.weights.map (fun w => w * w)).sum < (ps.num_particles : ℚ) / 2 then
    ⟨(resample_indices ps u₀).map
      (fun i => ⟨ps.state_vector.getD i [], 1 / (ps.num_particles : ℚ)⟩)⟩
  else ps

/-- The normalise-and-rebuild tail shared verbatim by both `update`
methods (particle_filter.py lines 124–134 and 177–187): zip the old
particles with the new weights, then divide every weight by the total iff
the total is strictly positive. -/
def reweight (particle_state : ParticleState) (new_weights : List ℚ) : ParticleState :=
  let new_particles := List.zipWith
    (fun particle w => Particle.mk particle.state_vector w)
    particle_state.particles new_weights
  if 0 < new_weights.sum then
    ⟨new_particles.map (fun p => ⟨p.state_vector, p.weight / new_weights.sum⟩)⟩
  else
    ⟨new_particles⟩

/-- The pre-normalisation weights of `BootstrapParticleFilter.update`
(particle_filter.py lines 113–121): elementwise product of the old weights
with the likelihood vector of the single measurement. -/
def BootstrapParticleFilter.new_weights (lf : LikelihoodFunction) (mm : MeasurementModel)
    (particle_state : ParticleState) (measurement : Measurement) : List ℚ :=
  List.zipWith (fun w l => w * l) particle_state.weights
    (lf measurement.state_vector (mm.function particle_state) mm.covar)

/-- `BootstrapParticleFilter.update` up to (and including) normalisation,
before the `resample` call (particle_filter.py lines 113–134). -/
def BootstrapParticleFilter.weight_update (lf : LikelihoodFunction) (mm : MeasurementModel)
    (particle_state : ParticleState) (measurement : Measurement) : ParticleState :=
  reweight particle_state (BootstrapParticleFilter.new_weights lf mm particle_state measurement)

/-- `BootstrapParticleFilter.update` (particle_filter.py lines 84–136),
ending in `return self.resample(ParticleState(new_particles))`. -/
def BootstrapParticleFilter.update (lf : LikelihoodFunction) (mm : MeasurementModel)
    (particle_state : ParticleState) (measurement : Measurement) (u₀ : ℚ) : ParticleState :=
  resample (BootstrapParticleFilter.weight_update lf mm particle_state measurement) u₀

/-- The `M × N` likelihood matrix of `ExpectedLikelihoodParticleFilter.update`
(particle_filter.py lines 160–166): row `i` is the likelihood vector of
measurement `i` against every particle. -/
def ExpectedLikelihoodParticleFilter.likelihood_matrix (lf : LikelihoodFunction)
    (mm : MeasurementModel) (particle_state : ParticleState)
    (measurements : List Measurement) : List (List ℚ) :=
  measurements.map
    (fun m => lf m.state_vector (mm.function particle_state) mm.covar)

/-- `np.mean(association_probabilities, axis=0)` (particle_filter.py line
171): the column-wise mean of the `M × N` matrix, whose width is
`predicted_measurements.shape[1]` (line 160). -/
def ExpectedLikelihoodParticleFilter.expected_likelihoods (lf : LikelihoodFunction)
    (mm : MeasurementModel) (particle_state : ParticleState)
    (measurements : List Measurement) : List ℚ :=
  (List.range (mm.function particle_state).length).map
    (fun i =>
      ((ExpectedLikelihoodParticleFilter.likelihood_matrix lf mm particle_state
          measurements).map (fun r => r.getD i 0)).sum / (measurements.length : ℚ))

/-- The pre-normalisation weights of `ExpectedLikelihoodParticleFilter.update`
(particle_filter.py lines 169–174): elementwise product of the old weights
with the expected likelihoods. -/
def ExpectedLikelihoodParticleFilter.new_weights (lf : LikelihoodFunction)
    (mm : MeasurementModel) (particle_state : ParticleState)
    (measurements : List Measurement) : List ℚ :=
  List.zipWith (fun w l => w * l) particle_state.weights
    (ExpectedLikelihoodParticleFilter.expected_likelihoods lf mm particle_state measurements)

/-- `ExpectedLikelihoodParticleFilter.update` up to (and including)
normalisation, before the `resample` call (particle_filter.py lines
158–187). -/
def ExpectedLikelihoodParticleFilter.weight_update (lf : LikelihoodFunction)
    (mm : MeasurementModel) (particle_state : ParticleState)
    (measurements : List Measurement) : ParticleState :=
  reweight particle_state
    (ExpectedLikelihoodParticleFilter.new_weights lf mm particle_state measurements)

/-- `ExpectedLikelihoodParticleFilter.update` (particle_filter.py lines
141–190), ending in `return self.resample(ParticleState(new_particles))`. -/
def ExpectedLikelihoodParticleFilter.update (lf : LikelihoodFunction)
    (mm : MeasurementModel) (particle_state : ParticleState)
    (measurements : List Measurement) (u₀ : ℚ) : ParticleState :=
  resample (ExpectedLikelihoodParticleFilter.weight_update lf mm particle_state measurements) u₀

/-! ### Concrete stub collaborators and states (spec §8 style test fixtures) -/

/-- The 3-particle state of the spec §8 end-to-end scenario: states
`[0,0]`, `[1,0]`, `[2,0]` with weights `[0.2, 0.3, 0.5]`. -/
def psA : ParticleState :=
  ⟨[⟨[0, 0], 2 / 10⟩, ⟨[1, 0], 3 / 10⟩, ⟨[2, 0], 5 / 10⟩]⟩

/-- A degenerate 3-particle state with all weight on the first particle,
so `ESS = 1 < 3/2` and resampling triggers. -/
def psB : ParticleState :=
  ⟨[⟨[0], 1⟩, ⟨[1], 0⟩, ⟨[2], 0⟩]⟩

/-- A deterministic stub transition model: shifts every coordinate of every
particle by the time interval. -/
def tmA : TransitionModel :=
  ⟨fun ps dt => ps.state_vector.map (fun col => col.map (fun x => x + dt))⟩

/-- A stub measurement model: the predicted measurement of a particle is
its own state vector; covariance is irrelevant to the stub likelihood. -/
def mmA : MeasurementModel :=
  ⟨fun ps => ps.state_vector, []⟩

/-- A stub vectorised likelihood function: one value per predicted-measurement
column, the column sum plus the first entry of the observation. -/
def lfA : LikelihoodFunction :=
  fun z pred _ => pred.map (fun col => col.sum + z.getD 0 0)

/-- A stub observed measurement. -/
def measA : Measurement := ⟨[1, 1]⟩

/-! ### List plumbing lemmas -/

lemma length_weights (ps : ParticleState) : ps.weights.length = ps.num_particles :=
  List.length_map ps.particles Particle.weight

lemma length_state_vector (ps : ParticleState) : ps.state_vector.length = ps.num_particles :=
  List.length_map ps.particles Particle.state_vector

lemma zipWith_eq_map_right {α β γ : Type} (f : α → β → γ) (g : β → γ)
    (hfg : ∀ a b, f a b = g b) :
    ∀ (l₁ : List α) (l₂ : List β), l₂.length ≤ l₁.length →
      List.zipWith f l₁ l₂ = l₂.map g := by
  intro l₁
  induction l₁ with
  | nil =>
    intro l₂ h
    have : l₂ = [] := List.eq_nil_of_length_eq_zero (by simpa using h)
    simp [this]
  | cons a l₁ ih =>
    intro l₂ h
    cases l₂ with
    | nil => rfl
    | cons b l₂ => simp [hfg, ih l₂ (by simpa using h)]

lemma zipWith_eq_map_left {α β γ : Type} (f : α → β → γ) (g : α → γ)
    (hfg : ∀ a b, f a b = g a) :
    ∀ (l₁ : List α) (l₂ : List β), l₁.length ≤ l₂.length →
      List.zipWith f l₁ l₂ = l₁.map g := by
  intro l₁
  induction l₁ with
  | nil => intro l₂ h; rfl
  | cons a l₁ ih =>
    intro l₂ h
    cases l₂ with
    | nil => simp at h
    | cons b l₂ => simp [hfg, ih l₂ (by simpa using h)]

lemma sum_map_div (l : List ℚ) (c : ℚ) : (l.map (fun w => w / c)).sum = l.sum / c := by
  induction l with
  | nil => simp
  | cons x xs ih => simp [ih, add_div]

lemma sum_nonneg_all_zero (l : List ℚ) (h0 : ∀ x ∈ l, 0 ≤ x) (hs : l.sum = 0) :
    ∀ x ∈ l, x = 0 := by
  induction l with
  | nil => simp
  | cons x xs ih =>
    have hx : 0 ≤ x := h0 x (by simp)
    have hxs : 0 ≤ xs.sum := List.sum_nonneg (fun y hy => h0 y (by simp [hy]))
    simp only [List.sum_cons] at hs
    have hx0 : x = 0 := by linarith
    have hs0 : xs.sum = 0 := by linarith
    intro y hy
    rcases List.mem_cons.mp hy with h | h
    · rw [h, hx0]
    · exact ih (fun z hz => h0 z (by simp [hz])) hs0 y h

lemma length_cumsum (l : List ℚ) : (cumsum l).length = l.length := by
  induction l with
  | nil => rfl
  | cons x xs ih => simp [cumsum, ih]

lemma cumsum_getD (l : List ℚ) : ∀ i, i < l.length →
    (cumsum l).getD i 0 = (l.take (i + 1)).sum := by
  induction l with
  | nil => intro i hi; simp at hi
  | cons x xs ih =>
    intro i hi
    cases i with
    | zero => simp [cumsum]
    | succ n =>
      have hn : n < xs.length := by simpa using hi
      have h₁ : n < (cumsum xs).length := by rw [length_cumsum]; exact hn
      have h₂ : n < ((cumsum xs).map (fun s => x + s)).length := by simpa using h₁
      show (x :: (cumsum xs).map (fun s => x + s)).getD (n + 1) 0 = _
      rw [List.getD_cons_succ, List.getD_eq_getElem _ _ h₂, List.getElem_map,
        ← List.getD_eq_getElem _ 0 h₁, ih n hn]
      simp [List.take_succ_cons]

lemma length_setLast (l : List ℚ) (v : ℚ) : (setLast l v).length = l.length := by
  unfold setLast
  split
  · simp [*]
  · have : l.length ≠ 0 := by simp_all [List.length_eq_zero]
    simp only [List.length_append, List.length_dropLast, List.length_singleton]
    omega

lemma setLast_getD_last (l : List ℚ) (v : ℚ) (h : l ≠ []) :
    (setLast l v).getD (l.length - 1) 0 = v := by
  have hl : 0 < l.length := List.length_pos.mpr h
  have hdl : l.dropLast.length = l.length - 1 := List.length_dropLast l
  unfold setLast
  rw [if_neg h, List.getD_eq_getElem _ _ (by simp only [List.length_append,
    List.length_dropLast, List.length_singleton]; omega),
    List.getElem_append_right (by omega)]
  simp [hdl]

lemma setLast_getD_lt (l : List ℚ) (v : ℚ) (i : ℕ) (h : i < l.length - 1) :
    (setLast l v).getD i 0 = l.getD i 0 := by
  have hne : l ≠ [] := by
    intro he
    rw [he] at h
    simp at h
  have hdl : l.dropLast.length = l.length - 1 := List.length_dropLast l
  unfold setLast
  rw [if_neg hne, List.getD_eq_getElem _ _ (by simp only [List.length_append,
      List.length_dropLast, List.length_singleton]; omega),
    List.getElem_append_left (by omega), List.getElem_dropLast,
    ← List.getD_eq_getElem _ 0 (by omega)]

/-! ### Correctness of the `np.searchsorted` binary search -/

lemma bisect_left_aux_le (a : List ℚ) (v : ℚ) :
    ∀ fuel lo hi, lo ≤ hi → bisect_left_aux a v fuel lo hi ≤ hi := by
  intro fuel
  induction fuel with
  | zero => intro lo hi h; exact h
  | succ n ih =>
    intro lo hi h
    simp only [bisect_left_aux]
    split
    next hlt =>
      split
      · exact ih _ _ (by omega)
      · exact le_trans (ih _ _ (by omega)) (by omega)
    next hlt => exact h

lemma bisect_left_aux_lt (a : List ℚ) (v : ℚ) :
    ∀ fuel lo hi, lo < hi → v ≤ a.getD (hi - 1) 0 →
      bisect_left_aux a v fuel lo hi < hi := by
  intro fuel
  induction fuel with
  | zero => intro lo hi h _; exact h
  | succ n ih =>
    intro lo hi h hlast
    simp only [bisect_left_aux]
    rw [if_pos h]
    split
    next hmid =>
      rcases Nat.lt_or_ge ((lo + hi) / 2 + 1) hi with h' | h'
      · exact ih _ _ h' hlast
      · exfalso
        have hmideq : (lo + hi) / 2 = hi - 1 := by omega
        rw [hmideq] at hmid
        linarith
    next hmid =>
      exact lt_of_le_of_lt (bisect_left_aux_le a v n lo _ (by omega)) (by omega)

lemma bisect_left_aux_spec (a : List ℚ) (v : ℚ)
    (hmono : ∀ i j, i ≤ j → j < a.length → a.getD i 0 ≤ a.getD j 0) :
    ∀ fuel lo hi, hi - lo ≤ fuel → hi ≤ a.length →
      (∀ k, k < lo → a.getD k 0 < v) →
      (∀ k, hi ≤ k → k < a.length → v ≤ a.getD k 0) →
      (∀ k, k < bisect_left_aux a v fuel lo hi → a.getD k 0 < v) ∧
        (bisect_left_aux a v fuel lo hi < a.length →
          v ≤ a.getD (bisect_left_aux a v fuel lo hi) 0) := by
  intro fuel
  induction fuel with
  | zero =>
    intro lo hi hfuel hhi hlo hhi2
    simp only [bisect_left_aux]
    refine ⟨fun k hk => hlo k hk, fun hlt => hhi2 _ (by omega) hlt⟩
  | succ n ih =>
    intro lo hi hfuel hhi hlo hhi2
    simp only [bisect_left_aux]
    split
    next hlt =>
      split
      next hmid =>
        refine ih _ _ (by omega) hhi ?_ hhi2
        intro k hk
        exact lt_of_le_of_lt (hmono k ((lo + hi) / 2) (by omega) (by omega)) hmid
      next hmid =>
        push_neg at hmid
        refine ih _ _ (by omega) (by omega) hlo ?_
        intro k hk hk2
        exact le_trans hmid (hmono _ k hk hk2)
    next hlt =>
      refine ⟨fun k hk => hlo k hk, fun h => hhi2 _ (by omega) h⟩

lemma bisect_left_spec (a : List ℚ) (v : ℚ)
    (hmono : ∀ i j, i ≤ j → j < a.length → a.getD i 0 ≤ a.getD j 0) :
    (∀ k, k < bisect_left a v → a.getD k 0 < v) ∧
      (bisect_left a v < a.length → v ≤ a.getD (bisect_left a v) 0) :=
  bisect_left_aux_spec a v hmono a.length 0 a.length (by omega) le_rfl
    (fun k hk => absurd hk (Nat.not_lt_zero k))
    (fun k hk hk2 => absurd hk2 (by omega))

lemma bisect_left_lt_length (a : List ℚ) (v : ℚ) (ha : a ≠ [])
    (hv : v ≤ a.getD (a.length - 1) 0) : bisect_left a v < a.length :=
  bisect_left_aux_lt a v a.length 0 a.length (List.length_pos.mpr ha) hv

/-! ### Structural lemmas about `reweight` and `resample` -/

lemma weights_zipWith_mk (parts : List Particle) (nw : List ℚ)
    (h : nw.length ≤ parts.length) :
    (List.zipWith (fun particle w => Particle.mk particle.state_vector w) parts nw).map
      Particle.weight = nw := by
  rw [List.map_zipWith]
  rw [zipWith_eq_map_right _ (fun w => w) (fun _ _ => rfl) parts nw h]
  exact List.map_id' nw

lemma reweight_weights_pos (ps : ParticleState) (nw : List ℚ)
    (hlen : nw.length ≤ ps.num_particles) (hpos : 0 < nw.sum) :
    (reweight ps nw).weights = nw.map (fun w => w / nw.sum) := by
  unfold reweight ParticleState.weights
  rw [if_pos hpos]
  show (List.map _ _).map Particle.weight = _
  rw [List.map_map]
  have hcomp : (Particle.weight ∘ fun p => Particle.mk p.state_vector (p.weight / nw.sum))
      = (fun w => w / nw.sum) ∘ Particle.weight := rfl
  rw [hcomp, ← List.map_map, weights_zipWith_mk ps.particles nw hlen]

lemma reweight_weights_nonpos (ps : ParticleState) (nw : List ℚ)
    (hlen : nw.length ≤ ps.num_particles) (hpos : ¬ 0 < nw.sum) :
    (reweight ps nw).weights = nw := by
  unfold reweight ParticleState.weights
  rw [if_neg hpos]
  exact weights_zipWith_mk ps.particles nw hlen

lemma reweight_weights_sum_pos (ps : ParticleState) (nw : List ℚ)
    (hlen : nw.length ≤ ps.num_particles) (hpos : 0 < nw.sum) :
    (reweight ps nw).weights.sum = 1 := by
  rw [reweight_weights_pos ps nw hlen hpos, sum_map_div]
  exact div_self (ne_of_gt hpos)

lemma reweight_num_particles (ps : ParticleState) (nw : List ℚ) :
    (reweight ps nw).num_particles = min ps.num_particles nw.length := by
  unfold reweight ParticleState.num_particles
  split <;> simp [ParticleState.num_particles]

lemma length_resample_indices (ps : ParticleState) (u₀ : ℚ) :
    (resample_indices ps u₀).length = ps.num_particles := by
  rw [resample_indices, List.length_map, resample_points, List.length_map,
    List.length_range]

lemma resample_num_particles (ps : ParticleState) (u₀ : ℚ) :
    (resample ps u₀).num_particles = ps.num_particles := by
  unfold resample
  split
  · rfl
  · split
    · show (List.map _ _).length = _
      rw [List.length_map, length_resample_indices]
    · rfl

lemma range_map_getD (l : List ℚ) :
    (List.range l.length).map (fun i => l.getD i 0) = l := by
  apply List.ext_getElem
  · rw [List.length_map, List.length_range]
  · intro n h₁ h₂
    rw [List.getElem_map, List.getElem_range, List.getD_eq_getElem _ 0 h₂]

lemma take_sum_mono (l : List ℚ) (h0 : ∀ x ∈ l, 0 ≤ x) (a b : ℕ) (hab : a ≤ b) :
    (l.take a).sum ≤ (l.take b).sum := by
  have hb : b = a + (b - a) := by omega
  rw [hb, List.take_add, List.sum_append]
  have : 0 ≤ (List.take (b - a) (List.drop a l)).sum := by
    apply List.sum_nonneg
    intro x hx
    exact h0 x (List.mem_of_mem_drop (List.mem_of_mem_take hx))
  linarith

lemma length_resample_cdf (ps : ParticleState) :
    (resample_cdf ps).length = ps.num_particles := by
  rw [resample_cdf, length_setLast, length_cumsum, length_weights]

lemma resample_cdf_getD_lt (ps : ParticleState) (i : ℕ)
    (h : i < ps.num_particles - 1) :
    (resample_cdf ps).getD i 0 = (ps.weights.take (i + 1)).sum := by
  have hw := length_weights ps
  rw [resample_cdf, setLast_getD_lt _ _ _ (by rw [length_cumsum]; omega),
    cumsum_getD _ _ (by omega)]

lemma resample_cdf_getD_last (ps : ParticleState) (h : 0 < ps.num_particles) :
    (resample_cdf ps).getD (ps.num_particles - 1) 0 = 1 := by
  have hw := length_weights ps
  have hne : cumsum ps.weights ≠ [] := by
    intro he
    have := length_cumsum ps.weights
    rw [he] at this
    simp at this
    omega
  have hlen : (cumsum ps.weights).length = ps.num_particles := by
    rw [length_cumsum, hw]
  rw [resample_cdf, ← hlen, setLast_getD_last _ _ hne]

lemma resample_cdf_mono (ps : ParticleState) (hw : ∀ w ∈ ps.weights, 0 ≤ w)
    (hsum : ps.weights.sum = 1) :
    ∀ i j, i ≤ j → j < (resample_cdf ps).length →
      (resample_cdf ps).getD i 0 ≤ (resample_cdf ps).getD j 0 := by
  intro i j hij hj
  rw [length_resample_cdf] at hj
  have hwl := length_weights ps
  have htake : ∀ k, k + 1 ≤ ps.num_particles → (ps.weights.take (k + 1)).sum ≤ 1 := by
    intro k hk
    have := take_sum_mono ps.weights hw (k + 1) ps.weights.length (by omega)
    rw [List.take_of_length_le le_rfl, hsum] at this
    exact this
  rcases Nat.lt_or_ge j (ps.num_particles - 1) with hj1 | hj1
  · rw [resample_cdf_getD_lt ps i (by omega), resample_cdf_getD_lt ps j hj1]
    exact take_sum_mono ps.weights hw (i + 1) (j + 1) (by omega)
  · have hjeq : j = ps.num_particles - 1 := by omega
    rw [hjeq, resample_cdf_getD_last ps (by omega)]
    rcases Nat.lt_or_ge i (ps.num_particles - 1) with hi1 | hi1
    · rw [resample_cdf_getD_lt ps i hi1]
      exact htake i (by omega)
    · have : i = ps.num_particles - 1 := by omega
      rw [this, resample_cdf_getD_last ps (by omega)]

lemma resample_weights_sum (ps : ParticleState) (u₀ : ℚ) (h : ps.weights.sum = 1) :
    (resample ps u₀).weights.sum = 1 := by
  unfold resample
  split
  next h0 => exact h
  next h0 =>
    split
    next htrig =>
      have hne : ps.weights ≠ [] := by
        intro he
        exact h0 (by rw [he]; rfl)
      have hn : 0 < ps.num_particles := by
        have := length_weights ps
        have hne' : ps.weights.length ≠ 0 := fun hz => hne (List.eq_nil_of_length_eq_zero hz)
        omega
      show (ParticleState.mk _).weights.sum = 1
      unfold ParticleState.weights
      show ((List.map _ _).map Particle.weight).sum = 1
      rw [List.map_map]
      have hcomp : (Particle.weight ∘ fun i =>
          Particle.mk (ps.state_vector.getD i []) (1 / (ps.num_particles : ℚ)))
          = fun _ => (1 / (ps.num_particles : ℚ)) := rfl
      rw [hcomp, List.map_const', List.sum_replicate, length_resample_indices,
        nsmul_eq_mul]
      have hcast : (ps.num_particles : ℚ) ≠ 0 := Nat.cast_ne_zero.mpr (by omega)
      field_simp
    next htrig => exact h

lemma point_lt_one (ps : ParticleState) (u₀ : ℚ) (hn : 0 < ps.num_particles)
    (hu1 : u₀ < 1 / (ps.num_particles : ℚ)) (j : ℕ) (hj : j < ps.num_particles) :
    u₀ + (j : ℚ) / (ps.num_particles : ℚ) < 1 := by
  have hnQ : (0 : ℚ) < (ps.num_particles : ℚ) := by exact_mod_cast hn
  have h2 : u₀ * (ps.num_particles : ℚ) < 1 := (lt_div_iff₀ hnQ).mp hu1
  have h3 : (j : ℚ) + 1 ≤ (ps.num_particles : ℚ) := by exact_mod_cast hj
  have he : u₀ + (j : ℚ) / (ps.num_particles : ℚ)
      = (u₀ * (ps.num_particles : ℚ) + (j : ℚ)) / (ps.num_particles : ℚ) := by
    field_simp
  rw [he, div_lt_one hnQ]
  linarith

lemma bisect_point_lt (ps : ParticleState) (u₀ : ℚ) (hn : 0 < ps.num_particles)
    (hu1 : u₀ < 1 / (ps.num_particles : ℚ)) (j : ℕ) (hj : j < ps.num_particles) :
    bisect_left (resample_cdf ps) (u₀ + (j : ℚ) / (ps.num_particles : ℚ))
      < ps.num_particles := by
  have hlen := length_resample_cdf ps
  have hne : resample_cdf ps ≠ [] := by
    intro he
    rw [he] at hlen
    simp at hlen
    omega
  have hlast : u₀ + (j : ℚ) / (ps.num_particles : ℚ)
      ≤ (resample_cdf ps).getD ((resample_cdf ps).length - 1) 0 := by
    rw [hlen, resample_cdf_getD_last ps hn]
    exact le_of_lt (point_lt_one ps u₀ hn hu1 j hj)
  have hbd := bisect_left_lt_length (resample_cdf ps) _ hne hlast
  omega

/-! ### Claim theorems -/

/-- C6: for every ParticleState and time interval, `predict` returns a
state with the exact same weight vector (weights untouched, order
preserved) and whose state vectors are exactly the columns produced by the
single call of the transition model on the whole stacked state matrix. -/
theorem C6_predict_frame (tm : TransitionModel) (ps : ParticleState) (dt : ℚ)
    (htm : (tm.function ps dt).length = ps.num_particles) :
    (ParticleFilter.predict tm ps dt).weights = ps.weights
      ∧ (ParticleFilter.predict tm ps dt).state_vector = tm.function ps dt := by
  have hlen : ps.particles.length ≤ (tm.function ps dt).length := by
    rw [htm]
    exact le_rfl
  constructor
  · show (List.zipWith _ _ _).map Particle.weight = _
    rw [List.map_zipWith,
      zipWith_eq_map_right _ Particle.weight (fun a b => rfl) _ _ hlen]
    rfl
  · show (List.zipWith _ _ _).map Particle.state_vector = _
    rw [List.map_zipWith,
      zipWith_eq_map_left _ (fun s => s) (fun a b => rfl) _ _ (le_of_eq htm)]
    exact List.map_id' _

/-- Witness for C6 at the concrete transition-model stub and 3-particle
state. -/
theorem C6_predict_frame_witness :
    (tmA.function psA 1).length = psA.num_particles
      ∧ ((ParticleFilter.predict tmA psA 1).weights = psA.weights
          ∧ (ParticleFilter.predict tmA psA 1).state_vector = tmA.function psA 1) :=
  ⟨by decide, C6_predict_frame tmA psA 1 (by decide)⟩

/-- C5: given `N` particles, `predict`, `resample` and both `update`
variants all return exactly `N` particles (under the collaborator
contracts of spec §6: the transition model returns `N` columns and the
likelihood function returns `N` likelihoods). -/
theorem C5_particle_count_invariance (tm : TransitionModel) (lf : LikelihoodFunction)
    (mm : MeasurementModel) (ps : ParticleState) (dt : ℚ) (meas : Measurement)
    (ms : List Measurement) (u₀ u₁ u₂ : ℚ)
    (htm : (tm.function ps dt).length = ps.num_particles)
    (hlik : (lf meas.state_vector (mm.function ps) mm.covar).length = ps.num_particles)
    (hN : (mm.function ps).length = ps.num_particles) :
    (ParticleFilter.predict tm ps dt).num_particles = ps.num_particles
      ∧ (resample ps u₂).num_particles = ps.num_particles
      ∧ (BootstrapParticleFilter.update lf mm ps meas u₀).num_particles = ps.num_particles
      ∧ (ExpectedLikelihoodParticleFilter.update lf mm ps ms u₁).num_particles
          = ps.num_particles := by
  have hpl : ps.particles.length = ps.num_particles := rfl
  refine ⟨?_, resample_num_particles ps u₂, ?_, ?_⟩
  · show (List.zipWith _ _ _).length = _
    rw [List.length_zipWith, htm, hpl]
    exact min_self _
  · simp only [BootstrapParticleFilter.update, BootstrapParticleFilter.weight_update]
    rw [resample_num_particles, reweight_num_particles,
      BootstrapParticleFilter.new_weights, List.length_zipWith, length_weights, hlik]
    simp
  · simp only [ExpectedLikelihoodParticleFilter.update,
      ExpectedLikelihoodParticleFilter.weight_update]
    rw [resample_num_particles, reweight_num_particles,
      ExpectedLikelihoodParticleFilter.new_weights, List.length_zipWith, length_weights,
      ExpectedLikelihoodParticleFilter.expected_likelihoods, List.length_map,
      List.length_range, hN]
    simp

/-- Witness for C5 at the concrete stubs. -/
theorem C5_particle_count_invariance_witness :
    ((tmA.function psA 1).length = psA.num_particles
        ∧ (lfA measA.state_vector (mmA.function psA) mmA.covar).length = psA.num_particles
        ∧ (mmA.function psA).length = psA.num_particles)
      ∧ ((ParticleFilter.predict tmA psA 1).num_particles = psA.num_particles
          ∧ (resample psA 0).num_particles = psA.num_particles
          ∧ (BootstrapParticleFilter.update lfA mmA psA measA 0).num_particles
              = psA.num_particles
          ∧ (ExpectedLikelihoodParticleFilter.update lfA mmA psA [measA] 0).num_particles
              = psA.num_particles) :=
  ⟨⟨by decide, by decide, by decide⟩,
    C5_particle_count_invariance tmA lfA mmA psA 1 measA [measA] 0 0 0
      (by decide) (by decide) (by decide)⟩

/-- C3: `BootstrapParticleFilter.update` multiplies each old weight by
that particle's likelihood; it divides by the total iff the total is
strictly positive (and then the weights sum to 1); when the total is not
positive the weights are returned exactly as computed — no error, no
fallback. -/
theorem C3_bootstrap_update_weighting (lf : LikelihoodFunction) (mm : MeasurementModel)
    (ps : ParticleState) (meas : Measurement)
    (hlik : (lf meas.state_vector (mm.function ps) mm.covar).length = ps.num_particles) :
    (∀ i, i < ps.num_particles →
        (BootstrapParticleFilter.new_weights lf mm ps meas).getD i 0
          = ps.weights.getD i 0
              * (lf meas.state_vector (mm.function ps) mm.covar).getD i 0)
      ∧ (0 < (BootstrapParticleFilter.new_weights lf mm ps meas).sum →
          (BootstrapParticleFilter.weight_update lf mm ps meas).weights
            = (BootstrapParticleFilter.new_weights lf mm ps meas).map
                (fun w => w / (BootstrapParticleFilter.new_weights lf mm ps meas).sum)
            ∧ (BootstrapParticleFilter.weight_update lf mm ps meas).weights.sum = 1)
      ∧ (¬ 0 < (BootstrapParticleFilter.new_weights lf mm ps meas).sum →
          (BootstrapParticleFilter.weight_update lf mm ps meas).weights
            = BootstrapParticleFilter.new_weights lf mm ps meas) := by
  have hwl := length_weights ps
  have hlen : (BootstrapParticleFilter.new_weights lf mm ps meas).length
      ≤ ps.num_particles := by
    rw [BootstrapParticleFilter.new_weights, List.length_zipWith, length_weights]
    omega
  refine ⟨?_, fun hpos => ⟨?_, ?_⟩, fun hpos => ?_⟩
  · intro i hi
    have hz : i < (List.zipWith (fun w l => w * l) ps.weights
        (lf meas.state_vector (mm.function ps) mm.covar)).length := by
      rw [List.length_zipWith, length_weights, hlik]
      omega
    show (List.zipWith _ _ _).getD i 0 = _
    rw [List.getD_eq_getElem _ 0 hz, List.getElem_zipWith,
      List.getD_eq_getElem _ 0 (by omega : i < ps.weights.length),
      List.getD_eq_getElem _ 0 (by rw [hlik]; omega)]
  · exact reweight_weights_pos ps _ hlen hpos
  · exact reweight_weights_sum_pos ps _ hlen hpos
  · exact reweight_weights_nonpos ps _ hlen hpos

/-- Witness for C3 at the concrete stubs (positive-total branch active). -/
theorem C3_bootstrap_update_weighting_witness :
    ((lfA measA.state_vector (mmA.function psA) mmA.covar).length = psA.num_particles)
      ∧ ((∀ i, i < psA.num_particles →
            (BootstrapParticleFilter.new_weights lfA mmA psA measA).getD i 0
              = psA.weights.getD i 0
                  * (lfA measA.state_vector (mmA.function psA) mmA.covar).getD i 0)
          ∧ (0 < (BootstrapParticleFilter.new_weights lfA mmA psA measA).sum →
              (BootstrapParticleFilter.weight_update lfA mmA psA measA).weights
                = (BootstrapParticleFilter.new_weights lfA mmA psA measA).map
                    (fun w => w / (BootstrapParticleFilter.new_weights lfA mmA psA measA).sum)
                ∧ (BootstrapParticleFilter.weight_update lfA mmA psA measA).weights.sum = 1)
          ∧ (¬ 0 < (BootstrapParticleFilter.new_weights lfA mmA psA measA).sum →
              (BootstrapParticleFilter.weight_update lfA mmA psA measA).weights
                = BootstrapParticleFilter.new_weights lfA mmA psA measA)) :=
  ⟨by decide, C3_bootstrap_update_weighting lfA mmA psA measA (by decide)⟩

/-- C1: on a non-empty list of `M` measurements,
`ExpectedLikelihoodParticleFilter.update` builds an `M × N` likelihood
matrix (one row per measurement, one column per particle), and the
pre-normalisation weight of particle `i` is its old weight times the
column-`i` arithmetic mean of that matrix. -/
theorem C1_expected_likelihood_update (lf : LikelihoodFunction) (mm : MeasurementModel)
    (ps : ParticleState) (ms : List Measurement)
    (hM : 0 < ms.length)
    (hN : (mm.function ps).length = ps.num_particles)
    (hrows : ∀ m ∈ ms,
      (lf m.state_vector (mm.function ps) mm.covar).length = (mm.function ps).length) :
    (ExpectedLikelihoodParticleFilter.likelihood_matrix lf mm ps ms).length = ms.length
      ∧ (∀ row ∈ ExpectedLikelihoodParticleFilter.likelihood_matrix lf mm ps ms,
          row.length = ps.num_particles)
      ∧ (∀ i, i < ps.num_particles →
          (ExpectedLikelihoodParticleFilter.new_weights lf mm ps ms).getD i 0
            = ps.weights.getD i 0
                * (((ExpectedLikelihoodParticleFilter.likelihood_matrix lf mm ps ms).map
                      (fun r => r.getD i 0)).sum / (ms.length : ℚ))) := by
  refine ⟨List.length_map ms _, ?_, ?_⟩
  · intro row hrow
    obtain ⟨m, hm, rfl⟩ := List.mem_map.mp hrow
    rw [hrows m hm, hN]
  · intro i hi
    have hexp : (ExpectedLikelihoodParticleFilter.expected_likelihoods lf mm ps ms).length
        = ps.num_particles := by
      rw [ExpectedLikelihoodParticleFilter.expected_likelihoods, List.length_map,
        List.length_range, hN]
    have hz : i < (List.zipWith (fun w l => w * l) ps.weights
        (ExpectedLikelihoodParticleFilter.expected_likelihoods lf mm ps ms)).length := by
      rw [List.length_zipWith, length_weights, hexp]
      omega
    show (List.zipWith _ _ _).getD i 0 = _
    rw [List.getD_eq_getElem _ 0 hz, List.getElem_zipWith,
      List.getD_eq_getElem _ 0 (by rw [length_weights]; omega)]
    congr 1
    have hi' : i < (ExpectedLikelihoodParticleFilter.expected_likelihoods lf mm ps ms).length := by
      omega
    have hir : i < (List.range (mm.function ps).length).length := by
      rw [List.length_range, hN]
      omega
    simp only [ExpectedLikelihoodParticleFilter.expected_likelihoods]
    rw [List.getElem_map, List.getElem_range]

/-- Witness for C1 at the concrete stubs with a single-measurement list. -/
theorem C1_expected_likelihood_update_witness :
    (0 < ([measA] : List Measurement).length
        ∧ (mmA.function psA).length = psA.num_particles
        ∧ ∀ m ∈ ([measA] : List Measurement),
            (lfA m.state_vector (mmA.function psA) mmA.covar).length
              = (mmA.function psA).length)
      ∧ ((ExpectedLikelihoodParticleFilter.likelihood_matrix lfA mmA psA [measA]).length
            = ([measA] : List Measurement).length
          ∧ (∀ row ∈ ExpectedLikelihoodParticleFilter.likelihood_matrix lfA mmA psA [measA],
              row.length = psA.num_particles)
          ∧ (∀ i, i < psA.num_particles →
              (ExpectedLikelihoodParticleFilter.new_weights lfA mmA psA [measA]).getD i 0
                = psA.weights.getD i 0
                    * (((ExpectedLikelihoodParticleFilter.likelihood_matrix
                          lfA mmA psA [measA]).map (fun r => r.getD i 0)).sum
                        / (([measA] : List Measurement).length : ℚ)))) :=
  ⟨⟨by decide, by decide, by decide⟩,
    C1_expected_likelihood_update lfA mmA psA [measA] (by decide) (by decide) (by decide)⟩

/-- C4: whenever the post-multiplication weight total is strictly
positive, the state returned by `update` — of either filter, through the
conditional `resample` tail — has weights summing to exactly 1. -/
theorem C4_update_weight_conservation (lf : LikelihoodFunction) (mm : MeasurementModel)
    (ps : ParticleState) (meas : Measurement) (ms : List Measurement) (u₀ u₁ : ℚ)
    (hb : 0 < (BootstrapParticleFilter.new_weights lf mm ps meas).sum)
    (he : 0 < (ExpectedLikelihoodParticleFilter.new_weights lf mm ps ms).sum) :
    (BootstrapParticleFilter.update lf mm ps meas u₀).weights.sum = 1
      ∧ (ExpectedLikelihoodParticleFilter.update lf mm ps ms u₁).weights.sum = 1 := by
  constructor
  · simp only [BootstrapParticleFilter.update, BootstrapParticleFilter.weight_update]
    apply resample_weights_sum
    apply reweight_weights_sum_pos ps _ _ hb
    rw [BootstrapParticleFilter.new_weights, List.length_zipWith, length_weights]
    omega
  · simp only [ExpectedLikelihoodParticleFilter.update,
      ExpectedLikelihoodParticleFilter.weight_update]
    apply resample_weights_sum
    apply reweight_weights_sum_pos ps _ _ he
    rw [ExpectedLikelihoodParticleFilter.new_weights, List.length_zipWith, length_weights]
    omega

/-- Witness for C4 at the concrete stubs (both totals positive). -/
theorem C4_update_weight_conservation_witness :
    (0 < (BootstrapParticleFilter.new_weights lfA mmA psA measA).sum
        ∧ 0 < (ExpectedLikelihoodParticleFilter.new_weights lfA mmA psA [measA]).sum)
      ∧ ((BootstrapParticleFilter.update lfA mmA psA measA 0).weights.sum = 1
          ∧ (ExpectedLikelihoodParticleFilter.update lfA mmA psA [measA] 0).weights.sum = 1) :=
  ⟨⟨by norm_num [BootstrapParticleFilter.new_weights, lfA, mmA, psA, measA,
      ParticleState.weights, ParticleState.state_vector],
    by norm_num [ExpectedLikelihoodParticleFilter.new_weights,
      ExpectedLikelihoodParticleFilter.expected_likelihoods,
      ExpectedLikelihoodParticleFilter.likelihood_matrix, lfA, mmA, psA, measA,
      ParticleState.weights, ParticleState.state_vector, List.range_succ]⟩,
    C4_update_weight_conservation lfA mmA psA measA [measA] 0 0
      (by norm_num [BootstrapParticleFilter.new_weights, lfA, mmA, psA, measA,
        ParticleState.weights, ParticleState.state_vector])
      (by norm_num [ExpectedLikelihoodParticleFilter.new_weights,
        ExpectedLikelihoodParticleFilter.expected_likelihoods,
        ExpectedLikelihoodParticleFilter.likelihood_matrix, lfA, mmA, psA, measA,
        ParticleState.weights, ParticleState.state_vector, List.range_succ])⟩

/-- C7: on a measurement list of size exactly 1, the expected-likelihood
update returns the same output weights as the Bootstrap update on the same
state and that single measurement (the mean over one row is that row). -/
theorem C7_singleton_equivalence (lf : LikelihoodFunction) (mm : MeasurementModel)
    (ps : ParticleState) (m : Measurement) (u₀ : ℚ)
    (hrow : (lf m.state_vector (mm.function ps) mm.covar).length
      = (mm.function ps).length) :
    (ExpectedLikelihoodParticleFilter.update lf mm ps [m] u₀).weights
      = (BootstrapParticleFilter.update lf mm ps m u₀).weights := by
  have hexp : ExpectedLikelihoodParticleFilter.expected_likelihoods lf mm ps [m]
      = lf m.state_vector (mm.function ps) mm.covar := by
    simp only [ExpectedLikelihoodParticleFilter.expected_likelihoods,
      ExpectedLikelihoodParticleFilter.likelihood_matrix, List.map_cons, List.map_nil,
      List.sum_cons, List.sum_nil, add_zero, List.length_singleton, Nat.cast_one,
      div_one]
    rw [← hrow]
    exact range_map_getD _
  have hnw : ExpectedLikelihoodParticleFilter.new_weights lf mm ps [m]
      = BootstrapParticleFilter.new_weights lf mm ps m := by
    rw [ExpectedLikelihoodParticleFilter.new_weights, hexp,
      BootstrapParticleFilter.new_weights]
  simp only [ExpectedLikelihoodParticleFilter.update, BootstrapParticleFilter.update,
    ExpectedLikelihoodParticleFilter.weight_update, BootstrapParticleFilter.weight_update]
  rw [hnw]

/-- Witness for C7 at the concrete stubs. -/
theorem C7_singleton_equivalence_witness :
    ((lfA measA.state_vector (mmA.function psA) mmA.covar).length
        = (mmA.function psA).length)
      ∧ (ExpectedLikelihoodParticleFilter.update lfA mmA psA [measA] 0).weights
          = (BootstrapParticleFilter.update lfA mmA psA measA 0).weights :=
  ⟨by decide, C7_singleton_equivalence lfA mmA psA measA 0 (by decide)⟩

/-- C8: the claim (and spec §7) call for a fail-fast descriptive error on
precondition violations such as a zero-particle state, but the code
performs no validation at all: on `N = 0`, `resample` evaluates
`ess = 1 / np.sum([])` as `1/0.0 = inf` (a numpy runtime warning, not an
exception), the trigger test `inf < 0/2` is false, and the degenerate
empty input is silently returned unchanged. -/
theorem C8_resample_zero_particles_silent :
    resample (ParticleState.mk []) 0 = ParticleState.mk [] := rfl

/-- C10: in the triggered branch every selected index is in bounds: the
final cumulative value is forced to exactly 1 while every sample point
`u_j = u₀ + j/N` with `u₀ ∈ [0, 1/N)` is strictly below 1, so the
`searchsorted` lower-bound lookup always returns an index `< N` and the
state-matrix column indexing never reads out of range. -/
theorem C10_resample_indices_in_bounds (ps : ParticleState) (u₀ : ℚ)
    (hn : 0 < ps.num_particles) (hw : ∀ w ∈ ps.weights, 0 ≤ w)
    (hu0 : 0 ≤ u₀) (hu1 : u₀ < 1 / (ps.num_particles : ℚ)) :
    ∀ i ∈ resample_indices ps u₀, i < ps.num_particles := by
  intro i hi
  rw [resample_indices] at hi
  obtain ⟨u, hu, rfl⟩ := List.mem_map.mp hi
  rw [resample_points] at hu
  obtain ⟨j, hj, rfl⟩ := List.mem_map.mp hu
  rw [List.mem_range] at hj
  exact bisect_point_lt ps u₀ hn hu1 j hj

/-- Witness for C10 at the concrete 3-particle state with `u₀ = 1/6`. -/
theorem C10_resample_indices_in_bounds_witness :
    (0 < psA.num_particles
        ∧ (∀ w ∈ psA.weights, 0 ≤ w)
        ∧ (0 : ℚ) ≤ 1 / 6
        ∧ (1 : ℚ) / 6 < 1 / (psA.num_particles : ℚ))
      ∧ ∀ i ∈ resample_indices psA (1 / 6), i < psA.num_particles :=
  ⟨⟨by decide,
    by norm_num [psA, ParticleState.weights],
    by norm_num,
    by norm_num [psA, ParticleState.num_particles]⟩,
    C10_resample_indices_in_bounds psA (1 / 6) (by decide)
      (by norm_num [psA, ParticleState.weights]) (by norm_num)
      (by norm_num [psA, ParticleState.num_particles])⟩

/-- C2: on a valid ParticleState (`N > 0`, non-negative weights summing to
1) and an offset `u₀ ∈ [0, 1/N)`, `resample` resamples iff
`ESS = 1/Σwᵢ² < N/2`, returning the input itself otherwise; when
triggered it returns exactly `N` particles, the cumulative array is the
running sum of the weights with its final entry forced to exactly 1, and
particle `j` copies the state vector at the first index `i` with
`cdf[i] ≥ u_j` (where `u_j = u₀ + j/N`) and carries weight exactly
`1/N`. -/
theorem C2_resample_systematic (ps : ParticleState) (u₀ : ℚ)
    (hn : 0 < ps.num_particles)
    (hw : ∀ w ∈ ps.weights, 0 ≤ w)
    (hsum : ps.weights.sum = 1)
    (hu0 : 0 ≤ u₀) (hu1 : u₀ < 1 / (ps.num_particles : ℚ)) :
    (¬ 1 / (ps.weights.map (fun w => w * w)).sum < (ps.num_particles : ℚ) / 2 →
        resample ps u₀ = ps)
      ∧ (1 / (ps.weights.map (fun w => w * w)).sum < (ps.num_particles : ℚ) / 2 →
          (resample ps u₀).num_particles = ps.num_particles
          ∧ (∀ i, i < ps.num_particles - 1 →
              (resample_cdf ps).getD i 0 = (ps.weights.take (i + 1)).sum)
          ∧ (resample_cdf ps).getD (ps.num_particles - 1) 0 = 1
          ∧ (∀ j, j < ps.num_particles →
              (resample_indices ps u₀).getD j 0 < ps.num_particles
              ∧ u₀ + (j : ℚ) / (ps.num_particles : ℚ)
                  ≤ (resample_cdf ps).getD ((resample_indices ps u₀).getD j 0) 0
              ∧ (∀ k, k < (resample_indices ps u₀).getD j 0 →
                  (resample_cdf ps).getD k 0 < u₀ + (j : ℚ) / (ps.num_particles : ℚ))
              ∧ (resample ps u₀).particles.getD j ⟨[], 0⟩
                  = ⟨ps.state_vector.getD ((resample_indices ps u₀).getD j 0) [],
                      1 / (ps.num_particles : ℚ)⟩)) := by
  have hsq0 : ∀ x ∈ ps.weights.map (fun w => w * w), 0 ≤ x := by
    intro x hx
    obtain ⟨w, hw', rfl⟩ := List.mem_map.mp hx
    exact mul_self_nonneg w
  have hsumsq : ¬ (ps.weights.map (fun w => w * w)).sum = 0 := by
    intro h0
    have hz := sum_nonneg_all_zero _ hsq0 h0
    have hall : ∀ w ∈ ps.weights, w = 0 := by
      intro w hw'
      exact mul_self_eq_zero.mp (hz (w * w) (List.mem_map_of_mem _ hw'))
    rw [List.sum_eq_zero hall] at hsum
    exact zero_ne_one hsum
  constructor
  · intro htrig
    rw [resample, if_neg hsumsq, if_neg htrig]
  · intro htrig
    have hres : resample ps u₀ = ParticleState.mk ((resample_indices ps u₀).map
        (fun i => Particle.mk (ps.state_vector.getD i []) (1 / (ps.num_particles : ℚ)))) := by
      rw [resample, if_neg hsumsq, if_pos htrig]
    refine ⟨resample_num_particles ps u₀, fun i hi => resample_cdf_getD_lt ps i hi,
      resample_cdf_getD_last ps hn, ?_⟩
    intro j hj
    have hplen : (resample_points ps u₀).length = ps.num_particles := by
      rw [resample_points, List.length_map, List.length_range]
    have hilen := length_resample_indices ps u₀
    have hjp : j < (resample_points ps u₀).length := by omega
    have hji : j < (resample_indices ps u₀).length := by omega
    have hpoint : (resample_points ps u₀).getD j 0
        = u₀ + (j : ℚ) / (ps.num_particles : ℚ) := by
      rw [List.getD_eq_getElem _ 0 hjp]
      simp only [resample_points]
      rw [List.getElem_map, List.getElem_range]
    have hidx : (resample_indices ps u₀).getD j 0
        = bisect_left (resample_cdf ps) (u₀ + (j : ℚ) / (ps.num_particles : ℚ)) := by
      rw [List.getD_eq_getElem _ 0 hji]
      simp only [resample_indices]
      rw [List.getElem_map]
      rw [← List.getD_eq_getElem _ 0 hjp, hpoint]
    have hmono := resample_cdf_mono ps hw hsum
    have hspec := bisect_left_spec (resample_cdf ps)
      (u₀ + (j : ℚ) / (ps.num_particles : ℚ)) hmono
    have hlt := bisect_point_lt ps u₀ hn hu1 j hj
    refine ⟨?_, ?_, ?_, ?_⟩
    · rw [hidx]
      exact hlt
    · rw [hidx]
      apply hspec.2
      rw [length_resample_cdf]
      exact hlt
    · rw [hidx]
      intro k hk
      exact hspec.1 k hk
    · rw [hres]
      show ((resample_indices ps u₀).map
          (fun i => Particle.mk (ps.state_vector.getD i [])
            (1 / (ps.num_particles : ℚ)))).getD j (Particle.mk [] 0) = _
      rw [List.getD_eq_getElem _ _ (by rw [List.length_map]; omega), List.getElem_map,
        List.getD_eq_getElem _ 0 hji]

/-- Witness for C2 at the degenerate 3-particle state (`ESS = 1 < 3/2`,
so the triggered branch is exercised) and `u₀ = 1/6`. -/
theorem C2_resample_systematic_witness :
    (0 < psB.num_particles
        ∧ (∀ w ∈ psB.weights, 0 ≤ w)
        ∧ psB.weights.sum = 1
        ∧ (0 : ℚ) ≤ 1 / 6
        ∧ (1 : ℚ) / 6 < 1 / (psB.num_particles : ℚ))
      ∧ ((¬ 1 / (psB.weights.map (fun w => w * w)).sum < (psB.num_particles : ℚ) / 2 →
            resample psB (1 / 6) = psB)
          ∧ (1 / (psB.weights.map (fun w => w * w)).sum < (psB.num_particles : ℚ) / 2 →
              (resample psB (1 / 6)).num_particles = psB.num_particles
              ∧ (∀ i, i < psB.num_particles - 1 →
                  (resample_cdf psB).getD i 0 = (psB.weights.take (i + 1)).sum)
              ∧ (resample_cdf psB).getD (psB.num_particles - 1) 0 = 1
              ∧ (∀ j, j < psB.num_particles →
                  (resample_indices psB (1 / 6)).getD j 0 < psB.num_particles
                  ∧ 1 / 6 + (j : ℚ) / (psB.num_particles : ℚ)
                      ≤ (resample_cdf psB).getD
                          ((resample_indices psB (1 / 6)).getD j 0) 0
                  ∧ (∀ k, k < (resample_indices psB (1 / 6)).getD j 0 →
                      (resample_cdf psB).getD k 0
                        < 1 / 6 + (j : ℚ) / (psB.num_particles : ℚ))
                  ∧ (resample psB (1 / 6)).particles.getD j ⟨[], 0⟩
                      = ⟨psB.state_vector.getD
                            ((resample_indices psB (1 / 6)).getD j 0) [],
                          1 / (psB.num_particles : ℚ)⟩))) :=
  ⟨⟨by decide,
    by norm_num [psB, ParticleState.weights],
    by norm_num [psB, ParticleState.weights],
    by norm_num,
    by norm_num [psB, ParticleState.num_particles]⟩,
    C2_resample_systematic psB (1 / 6) (by decide)
      (by norm_num [psB, ParticleState.weights])
      (by norm_num [psB, ParticleState.weights])
      (by norm_num)
      (by norm_num [psB, ParticleState.num_particles])⟩

end ELPF
